import Mathlib

/-!
Verification development for the crypto-arbitrage backend core
(app/services/exchanges.py and app/services/price_monitor.py).

Modelling conventions:
- Python floats carrying prices are modelled as rationals (ℚ); the code
  performs only +, -, /, comparisons on them.
- An adapter call (`client.get_price(symbol)`) is modelled as a function
  `String → Except String (Option ℚ)`: `.error e` models the call raising
  an exception-like fault, `.ok none` models returning `None` (no price),
  `.ok (some v)` models returning price `v`.
- `asyncio.gather(*tasks, return_exceptions=True)` keeps results keyed in
  task-creation order, so the fan-out is modelled as an order-preserving map
  over the registry's adapter list; Python dicts preserve insertion order,
  so the provider→price mapping is an association list in that same order.
- Timestamps (`datetime.utcnow()`) are an opaque `ℕ` supplied by the caller.
- Functions whose Python body sits inside `try/except` are modelled in two
  layers: a `..._body` of type `Except String _` where each raising operation
  (here only the float division by zero in `get_price_comparison`) produces
  `.error`, and the caught version mapping `.error` to the except-branch value.
-/

namespace CryptoArb

/-- Result of one adapter `get_price` call: an exception-like fault, no
price, or a price. -/
abbrev AdapterResult := Except String (Option ℚ)

/-- The exchange registry state after `_initialize_exchanges`: the ordered
association list `self.exchanges` of provider name to adapter behaviour. -/
structure Registry where
  exchanges : List (String × (String → AdapterResult))

/-- Embeds `ExchangeManager.get_all_prices`: if no exchanges are available
return the empty mapping; otherwise fan out to every adapter and collect a
keyed result per provider, an exception-like fault becoming `none` for that
provider's key only (the `isinstance(result, Exception)` branch). -/
def get_all_prices (reg : Registry) (symbol : String) : List (String × Option ℚ) :=
  if reg.exchanges.isEmpty then []
  else reg.exchanges.map fun nc =>
    (nc.1, match nc.2 symbol with
           | .error _ => none
           | .ok v => v)

/-- Embeds the pydantic `Price` model (models/price.py). -/
structure Price where
  exchange : String
  symbol : String
  price : ℚ
  timestamp : ℕ
deriving DecidableEq, Repr

/-- Embeds the pydantic `PriceComparison` model (models/price.py). -/
structure PriceComparison where
  symbol : String
  prices : List Price
  highest_price : Price
  lowest_price : Price
  price_difference : ℚ
  price_difference_percentage : ℚ
  timestamp : ℕ
deriving DecidableEq, Repr

/-- Embeds the pydantic `ArbitrageOpportunity` model (models/price.py). -/
structure ArbitrageOpportunity where
  symbol : String
  buy_exchange : String
  sell_exchange : String
  buy_price : ℚ
  sell_price : ℚ
  profit_percentage : ℚ
  profit_amount : ℚ
  timestamp : ℕ
deriving DecidableEq, Repr

/-- Embeds the loop in `get_price_comparison` building `prices` from
`prices_dict`: keep, in mapping order, one `Price` per provider whose value
is not `None`. -/
def collect_prices (symbol : String) (now : ℕ) (prices_dict : List (String × Option ℚ)) :
    List Price :=
  prices_dict.filterMap fun ep =>
    match ep.2 with
    | none => none
    | some v => some ⟨ep.1, symbol, v, now⟩

/-- Embeds Python `max(prices, key=lambda p: p.price)` starting from an
accumulator: the accumulator is replaced exactly when a later element's key
is strictly greater, so the first element attaining the maximum wins. -/
def maxByPriceAux (acc : Price) : List Price → Price
  | [] => acc
  | p :: ps => maxByPriceAux (if acc.price < p.price then p else acc) ps

/-- Embeds Python `min(prices, key=lambda p: p.price)` starting from an
accumulator: the accumulator is replaced exactly when a later element's key
is strictly smaller, so the first element attaining the minimum wins. -/
def minByPriceAux (acc : Price) : List Price → Price
  | [] => acc
  | p :: ps => minByPriceAux (if p.price < acc.price then p else acc) ps

/-- Embeds lines 40-60 of `get_price_comparison` given the already-built
`prices` list: the insufficient-data guard, the `max`/`min` extraction, the
difference computations, and the `PriceComparison` construction. The only
operation here that can raise is the float division
`price_difference / lowest_price.price`, which raises `ZeroDivisionError`
when the lowest price is exactly zero. -/
def compare_prices (symbol : String) (now : ℕ) (prices : List Price) :
    Except String (Option PriceComparison) :=
  if prices.length < 2 then .ok none
  else
    match prices with
    | [] => .ok none
    | p :: ps =>
      let highest_price := maxByPriceAux p ps
      let lowest_price := minByPriceAux p ps
      let price_difference := highest_price.price - lowest_price.price
      if lowest_price.price = 0 then .error "ZeroDivisionError"
      else
        .ok (some
          { symbol := symbol
            prices := prices
            highest_price := highest_price
            lowest_price := lowest_price
            price_difference := price_difference
            price_difference_percentage := price_difference / lowest_price.price * 100
            timestamp := now })

/-- Embeds the `try` body of `PriceMonitorService.get_price_comparison`:
fan out through the registry, keep the non-absent prices, and compare. -/
def get_price_comparison_body (reg : Registry) (symbol : String) (now : ℕ) :
    Except String (Option PriceComparison) :=
  compare_prices symbol now (collect_prices symbol now (get_all_prices reg symbol))

/-- Embeds `get_price_comparison` including its `try/except`: any exception
raised by the body is caught and turned into `None`. The result is stated in
`Except` form to witness that the except handler never re-raises. -/
def get_price_comparisonE (reg : Registry) (symbol : String) (now : ℕ) :
    Except String (Option PriceComparison) :=
  match get_price_comparison_body reg symbol now with
  | .error _ => .ok none
  | .ok v => .ok v

/-- The value `get_price_comparison` hands to its caller. -/
def get_price_comparison (reg : Registry) (symbol : String) (now : ℕ) :
    Option PriceComparison :=
  match get_price_comparisonE reg symbol now with
  | .error _ => none
  | .ok v => v

/-- Embeds the `try` body of `find_arbitrage_opportunities`: absent
comparison or below-threshold percentage yield the empty list, otherwise
exactly one opportunity built from the comparison. No operation in this body
raises, so the body is a pure value. -/
def find_arbitrage_opportunities_body (reg : Registry) (min_profit_percentage : ℚ)
    (symbol : String) (now : ℕ) : Except String (List ArbitrageOpportunity) :=
  match get_price_comparison reg symbol now with
  | none => .ok []
  | some pc =>
    if pc.price_difference_percentage < min_profit_percentage then .ok []
    else
      .ok [{ symbol := symbol
             buy_exchange := pc.lowest_price.exchange
             sell_exchange := pc.highest_price.exchange
             buy_price := pc.lowest_price.price
             sell_price := pc.highest_price.price
             profit_percentage := pc.price_difference_percentage
             profit_amount := pc.price_difference
             timestamp := now }]

/-- Embeds `find_arbitrage_opportunities` including its `try/except`: an
exception in the body would be caught and the `opportunities` accumulated so
far (the empty list) returned. -/
def find_arbitrage_opportunities (reg : Registry) (min_profit_percentage : ℚ)
    (symbol : String) (now : ℕ) : List ArbitrageOpportunity :=
  match find_arbitrage_opportunities_body reg min_profit_percentage symbol now with
  | .error _ => []
  | .ok l => l

/-- The comparison Python's `list.sort(key=lambda x: x.profit_percentage,
reverse=True)` sorts by: descending profit percentage. -/
def profitDescLe (a b : ArbitrageOpportunity) : Bool :=
  decide (b.profit_percentage ≤ a.profit_percentage)

/-- Embeds `get_all_arbitrage_opportunities`: gather the per-symbol results
in supported-symbol order (`asyncio.gather` preserves task order and
`find_arbitrage_opportunities` never raises, so the `isinstance(result,
Exception)` branch is dead), concatenate them, and stable-sort by profit
percentage descending (Python list.sort is stable and `reverse=True`
preserves stability among equal keys). -/
def get_all_arbitrage_opportunities (reg : Registry) (min_profit_percentage : ℚ)
    (supported_symbols : List String) (now : ℕ) : List ArbitrageOpportunity :=
  ((supported_symbols.map fun s =>
      find_arbitrage_opportunities reg min_profit_percentage s now).flatten).mergeSort
    profitDescLe

/-- Embeds Python `s.endswith(suffix)`: suffix test on the character
sequences of the two strings. -/
def str_ends_with (s suffix : String) : Bool :=
  suffix.data.isSuffixOf s.data

/-- Embeds the Binance symbol translation (exchanges.py lines 55-56):
append the USDT quote suffix unless already present. -/
def binance_symbol (symbol : String) : String :=
  if str_ends_with symbol "USDT" then symbol else symbol ++ "USDT"

/-- Embeds the Coinbase symbol translation (exchanges.py lines 85-86):
append the -USD quote suffix unless already present. -/
def coinbase_symbol (symbol : String) : String :=
  if str_ends_with symbol "-USD" then symbol else symbol ++ "-USD"

/-- Embeds the Kraken `symbol_mapping` lookup table (exchanges.py lines
114-119). -/
def kraken_symbol_mapping : List (String × String) :=
  [("BTC", "XXBTZUSD"), ("ETH", "XETHZUSD"),
   ("BTCUSDT", "XXBTZUSD"), ("ETHUSDT", "XETHZUSD")]

/-- Embeds the Kraken symbol translation (exchanges.py line 121):
`symbol_mapping.get(symbol, symbol)` — table hit, or pass-through. -/
def kraken_symbol (symbol : String) : String :=
  match kraken_symbol_mapping.lookup symbol with
  | some k => k
  | none => symbol

/-- Demo adapter returning 50000 for every symbol. -/
def demoAdapterA : String → AdapterResult := fun _ => .ok (some 50000)

/-- Demo adapter returning 50300 for every symbol. -/
def demoAdapterB : String → AdapterResult := fun _ => .ok (some 50300)

/-- Demo adapter raising an exception-like fault on every call. -/
def demoAdapterC : String → AdapterResult := fun _ => .error "timeout"

/-- Demo registry realizing the spec scenario: providers report
{binance: 50000, coinbase: 50300, kraken: absent}. -/
def demoReg : Registry :=
  ⟨[("binance", demoAdapterA), ("coinbase", demoAdapterB), ("kraken", demoAdapterC)]⟩

/-- The comparison the demo registry produces for any symbol at time 0. -/
def demoComparison : PriceComparison :=
  { symbol := "BTC"
    prices := [⟨"binance", "BTC", 50000, 0⟩, ⟨"coinbase", "BTC", 50300, 0⟩]
    highest_price := ⟨"coinbase", "BTC", 50300, 0⟩
    lowest_price := ⟨"binance", "BTC", 50000, 0⟩
    price_difference := 300
    price_difference_percentage := 3 / 5
    timestamp := 0 }

/-- Evaluation of the demo registry, matching the concrete scenario of the
spec: highest coinbase at 50300, lowest binance at 50000, difference 300,
percentage 0.6. -/
theorem demo_comparison_eval : get_price_comparison demoReg "BTC" 0 = some demoComparison := by
  norm_num [get_price_comparison, get_price_comparisonE, get_price_comparison_body,
    compare_prices, collect_prices, get_all_prices, demoReg, demoAdapterA, demoAdapterB,
    demoAdapterC, maxByPriceAux, minByPriceAux, demoComparison, List.filterMap_cons,
    List.filterMap_nil]

/-- Evaluation of the demo registry at threshold 0.5: exactly one
opportunity, buy binance at 50000, sell coinbase at 50300. -/
theorem demo_opportunity_eval : find_arbitrage_opportunities demoReg (1 / 2) "BTC" 0 =
    [⟨"BTC", "binance", "coinbase", 50000, 50300, 3 / 5, 300, 0⟩] := by
  norm_num [find_arbitrage_opportunities, find_arbitrage_opportunities_body,
    get_price_comparison, get_price_comparisonE, get_price_comparison_body,
    compare_prices, collect_prices, get_all_prices, demoReg, demoAdapterA, demoAdapterB,
    demoAdapterC, maxByPriceAux, minByPriceAux, List.filterMap_cons, List.filterMap_nil]

/-- Evaluation of the demo registry at threshold 1.0: zero opportunities. -/
theorem demo_below_threshold_eval : find_arbitrage_opportunities demoReg 1 "BTC" 0 = [] := by
  norm_num [find_arbitrage_opportunities, find_arbitrage_opportunities_body,
    get_price_comparison, get_price_comparisonE, get_price_comparison_body,
    compare_prices, collect_prices, get_all_prices, demoReg, demoAdapterA, demoAdapterB,
    demoAdapterC, maxByPriceAux, minByPriceAux, List.filterMap_cons, List.filterMap_nil]

/-- The element Python `max` picks is one of the iterated elements. -/
theorem maxByPriceAux_mem (ps : List Price) :
    ∀ acc, maxByPriceAux acc ps ∈ acc :: ps := by
  induction ps with
  | nil => intro acc; simp [maxByPriceAux]
  | cons p ps ih =>
    intro acc
    simp only [maxByPriceAux]
    by_cases h : acc.price < p.price
    · rw [if_pos h]
      have := ih p
      simp only [List.mem_cons] at this ⊢
      tauto
    · rw [if_neg h]
      have := ih acc
      simp only [List.mem_cons] at this ⊢
      tauto

/-- The element Python `max` picks has the largest key among all iterated
elements. -/
theorem le_maxByPriceAux (ps : List Price) :
    ∀ acc, ∀ q ∈ acc :: ps, q.price ≤ (maxByPriceAux acc ps).price := by
  induction ps with
  | nil =>
    intro acc q hq
    simp only [List.mem_cons, List.not_mem_nil, or_false] at hq
    subst hq
    simp [maxByPriceAux]
  | cons p ps ih =>
    intro acc q hq
    simp only [maxByPriceAux]
    rcases List.mem_cons.mp hq with rfl | hq
    · by_cases h : q.price < p.price
      · rw [if_pos h]
        exact le_of_lt (lt_of_lt_of_le h (ih p p (List.mem_cons_self p ps)))
      · rw [if_neg h]
        exact ih q q (List.mem_cons_self q ps)
    · rcases List.mem_cons.mp hq with rfl | hq
      · by_cases h : acc.price < q.price
        · rw [if_pos h]
          exact ih q q (List.mem_cons_self q ps)
        · rw [if_neg h]
          exact le_trans (le_of_not_lt h) (ih acc acc (List.mem_cons_self acc ps))
      · by_cases h : acc.price < p.price
        · rw [if_pos h]
          exact ih p q (List.mem_cons.mpr (Or.inr hq))
        · rw [if_neg h]
          exact ih acc q (List.mem_cons.mpr (Or.inr hq))

/-- Python `max` keeps the first element attaining the maximum: the
iterated list splits around the chosen element so that everything strictly
before it has a strictly smaller key. -/
theorem maxByPriceAux_first (ps : List Price) :
    ∀ acc, ∃ l₁ l₂, acc :: ps = l₁ ++ maxByPriceAux acc ps :: l₂ ∧
      ∀ q ∈ l₁, q.price < (maxByPriceAux acc ps).price := by
  induction ps with
  | nil =>
    intro acc
    exact ⟨[], [], by simp [maxByPriceAux], by simp⟩
  | cons p ps ih =>
    intro acc
    simp only [maxByPriceAux]
    by_cases h : acc.price < p.price
    · rw [if_pos h]
      obtain ⟨l₁, l₂, heq, hlt⟩ := ih p
      refine ⟨acc :: l₁, l₂, ?_, ?_⟩
      · rw [List.cons_append, ← heq]
      · intro q hq
        rcases List.mem_cons.mp hq with rfl | hq
        · exact lt_of_lt_of_le h (le_maxByPriceAux ps p p (List.mem_cons_self p ps))
        · exact hlt q hq
    · rw [if_neg h]
      obtain ⟨l₁, l₂, heq, hlt⟩ := ih acc
      cases l₁ with
      | nil =>
        simp only [List.nil_append] at heq
        injection heq with h₁ h₂
        refine ⟨[], p :: ps, ?_, by simp⟩
        simp [← h₁]
      | cons x t =>
        simp only [List.cons_append, List.cons.injEq] at heq
        obtain ⟨hx, h₂⟩ := heq
        subst hx
        refine ⟨acc :: p :: t, l₂, ?_, ?_⟩
        · conv_lhs => rw [h₂]
          simp
        · intro q hq
          have hacc : acc.price < (maxByPriceAux acc ps).price :=
            hlt acc (List.mem_cons_self acc t)
          rcases List.mem_cons.mp hq with rfl | hq
          · exact hacc
          · rcases List.mem_cons.mp hq with rfl | hq
            · exact lt_of_le_of_lt (le_of_not_lt h) hacc
            · exact hlt q (List.mem_cons.mpr (Or.inr hq))

/-- The element Python `min` picks is one of the iterated elements. -/
theorem minByPriceAux_mem (ps : List Price) :
    ∀ acc, minByPriceAux acc ps ∈ acc :: ps := by
  induction ps with
  | nil => intro acc; simp [minByPriceAux]
  | cons p ps ih =>
    intro acc
    simp only [minByPriceAux]
    by_cases h : p.price < acc.price
    · rw [if_pos h]
      have := ih p
      simp only [List.mem_cons] at this ⊢
      tauto
    · rw [if_neg h]
      have := ih acc
      simp only [List.mem_cons] at this ⊢
      tauto

/-- The element Python `min` picks has the smallest key among all iterated
elements. -/
theorem minByPriceAux_le (ps : List Price) :
    ∀ acc, ∀ q ∈ acc :: ps, (minByPriceAux acc ps).price ≤ q.price := by
  induction ps with
  | nil =>
    intro acc q hq
    simp only [List.mem_cons, List.not_mem_nil, or_false] at hq
    subst hq
    simp [minByPriceAux]
  | cons p ps ih =>
    intro acc q hq
    simp only [minByPriceAux]
    rcases List.mem_cons.mp hq with rfl | hq
    · by_cases h : p.price < q.price
      · rw [if_pos h]
        exact le_of_lt (lt_of_le_of_lt (ih p p (List.mem_cons_self p ps)) h)
      · rw [if_neg h]
        exact ih q q (List.mem_cons_self q ps)
    · rcases List.mem_cons.mp hq with rfl | hq
      · by_cases h : q.price < acc.price
        · rw [if_pos h]
          exact ih q q (List.mem_cons_self q ps)
        · rw [if_neg h]
          exact le_trans (ih acc acc (List.mem_cons_self acc ps)) (le_of_not_lt h)
      · by_cases h : p.price < acc.price
        · rw [if_pos h]
          exact ih p q (List.mem_cons.mpr (Or.inr hq))
        · rw [if_neg h]
          exact ih acc q (List.mem_cons.mpr (Or.inr hq))

/-- Python `min` keeps the first element attaining the minimum: the
iterated list splits around the chosen element so that everything strictly
before it has a strictly larger key. -/
theorem minByPriceAux_first (ps : List Price) :
    ∀ acc, ∃ l₁ l₂, acc :: ps = l₁ ++ minByPriceAux acc ps :: l₂ ∧
      ∀ q ∈ l₁, (minByPriceAux acc ps).price < q.price := by
  induction ps with
  | nil =>
    intro acc
    exact ⟨[], [], by simp [minByPriceAux], by simp⟩
  | cons p ps ih =>
    intro acc
    simp only [minByPriceAux]
    by_cases h : p.price < acc.price
    · rw [if_pos h]
      obtain ⟨l₁, l₂, heq, hlt⟩ := ih p
      refine ⟨acc :: l₁, l₂, ?_, ?_⟩
      · rw [List.cons_append, ← heq]
      · intro q hq
        rcases List.mem_cons.mp hq with rfl | hq
        · exact lt_of_le_of_lt (minByPriceAux_le ps p p (List.mem_cons_self p ps)) h
        · exact hlt q hq
    · rw [if_neg h]
      obtain ⟨l₁, l₂, heq, hlt⟩ := ih acc
      cases l₁ with
      | nil =>
        simp only [List.nil_append] at heq
        injection heq with h₁ h₂
        refine ⟨[], p :: ps, ?_, by simp⟩
        simp [← h₁]
      | cons x t =>
        simp only [List.cons_append, List.cons.injEq] at heq
        obtain ⟨hx, h₂⟩ := heq
        subst hx
        refine ⟨acc :: p :: t, l₂, ?_, ?_⟩
        · conv_lhs => rw [h₂]
          simp
        · intro q hq
          have hacc : (minByPriceAux acc ps).price < acc.price :=
            hlt acc (List.mem_cons_self acc t)
          rcases List.mem_cons.mp hq with rfl | hq
          · exact hacc
          · rcases List.mem_cons.mp hq with rfl | hq
            · exact lt_of_lt_of_le hacc (le_of_not_lt h)
            · exact hlt q (List.mem_cons.mpr (Or.inr hq))

/-- The fan-out is the keyed map over the adapter list, also when the list
is empty (both branches of the guard agree there). -/
theorem get_all_prices_eq_map (reg : Registry) (symbol : String) :
    get_all_prices reg symbol = reg.exchanges.map fun nc =>
      (nc.1, match nc.2 symbol with
             | .error _ => none
             | .ok v => v) := by
  unfold get_all_prices
  by_cases h : reg.exchanges.isEmpty
  · rw [if_pos h]
    rw [List.isEmpty_iff] at h
    rw [h]
    rfl
  · rw [if_neg h]

/-- Characterizes a successful comparison: the price list splits as
`p :: ps` with a second element, a nonzero minimum, and the record fields
are exactly the computed ones. -/
theorem compare_prices_ok_some (symbol : String) (now : ℕ) (prices : List Price)
    (c : PriceComparison) (h : compare_prices symbol now prices = .ok (some c)) :
    ∃ p ps, prices = p :: ps ∧ ps ≠ [] ∧ (minByPriceAux p ps).price ≠ 0 ∧
      c = ⟨symbol, p :: ps, maxByPriceAux p ps, minByPriceAux p ps,
        (maxByPriceAux p ps).price - (minByPriceAux p ps).price,
        ((maxByPriceAux p ps).price - (minByPriceAux p ps).price) /
          (minByPriceAux p ps).price * 100,
        now⟩ := by
  rcases prices with _ | ⟨p, _ | ⟨q, ps⟩⟩
  · simp [compare_prices] at h
  · simp [compare_prices] at h
  · simp only [compare_prices, List.length_cons] at h
    rw [if_neg (by omega)] at h
    by_cases h0 : (minByPriceAux p (q :: ps)).price = 0
    · rw [if_pos h0] at h
      simp at h
    · rw [if_neg h0] at h
      simp only [Except.ok.injEq, Option.some.injEq] at h
      exact ⟨p, q :: ps, rfl, by simp, h0, h.symm⟩

/-- The except handler of `get_price_comparison` always returns normally. -/
theorem get_price_comparisonE_eq_ok (reg : Registry) (symbol : String) (now : ℕ) :
    get_price_comparisonE reg symbol now = .ok (get_price_comparison reg symbol now) := by
  unfold get_price_comparison get_price_comparisonE
  cases get_price_comparison_body reg symbol now <;> rfl

/-- A comparison reaches the caller exactly when the body computed it. -/
theorem get_price_comparison_some_iff_body (reg : Registry) (symbol : String) (now : ℕ)
    (c : PriceComparison) :
    get_price_comparison reg symbol now = some c ↔
      get_price_comparison_body reg symbol now = .ok (some c) := by
  unfold get_price_comparison get_price_comparisonE
  cases get_price_comparison_body reg symbol now with
  | error e => simp
  | ok v => simp

/-- Characterizes a comparison reaching the caller in terms of the
collected price list. -/
theorem get_price_comparison_some_elim (reg : Registry) (symbol : String) (now : ℕ)
    (c : PriceComparison) (h : get_price_comparison reg symbol now = some c) :
    ∃ p ps, collect_prices symbol now (get_all_prices reg symbol) = p :: ps ∧
      ps ≠ [] ∧ (minByPriceAux p ps).price ≠ 0 ∧
      c = ⟨symbol, p :: ps, maxByPriceAux p ps, minByPriceAux p ps,
        (maxByPriceAux p ps).price - (minByPriceAux p ps).price,
        ((maxByPriceAux p ps).price - (minByPriceAux p ps).price) /
          (minByPriceAux p ps).price * 100,
        now⟩ :=
  compare_prices_ok_some symbol now _ c
    ((get_price_comparison_some_iff_body reg symbol now c).mp h)

/-- C1: whenever `get_price_comparison` returns a `PriceComparison` (which
requires at least 2 collected provider prices), `highest_price` is a
maximum-price element and `lowest_price` a minimum-price element of the
collected price list, `highest_price.price >= lowest_price.price`,
`price_difference` is exactly their difference, and
`price_difference_percentage` is exactly
`(highest - lowest) / lowest * 100`. -/
theorem C1_comparison_extrema_and_formulas (reg : Registry) (symbol : String) (now : ℕ)
    (c : PriceComparison) (h : get_price_comparison reg symbol now = some c) :
    2 ≤ c.prices.length ∧
    c.prices = collect_prices symbol now (get_all_prices reg symbol) ∧
    c.highest_price ∈ c.prices ∧
    c.lowest_price ∈ c.prices ∧
    (∀ p ∈ c.prices, p.price ≤ c.highest_price.price) ∧
    (∀ p ∈ c.prices, c.lowest_price.price ≤ p.price) ∧
    c.lowest_price.price ≤ c.highest_price.price ∧
    c.price_difference = c.highest_price.price - c.lowest_price.price ∧
    c.price_difference_percentage =
      (c.highest_price.price - c.lowest_price.price) / c.lowest_price.price * 100 := by
  obtain ⟨p, ps, hcol, hne, h0, rfl⟩ := get_price_comparison_some_elim reg symbol now c h
  refine ⟨?_, hcol.symm, ?_, ?_, ?_, ?_, ?_, rfl, rfl⟩
  · cases ps with
    | nil => exact absurd rfl hne
    | cons q ps => simp
  · exact maxByPriceAux_mem ps p
  · exact minByPriceAux_mem ps p
  · exact fun q hq => le_maxByPriceAux ps p q hq
  · exact fun q hq => minByPriceAux_le ps p q hq
  · exact minByPriceAux_le ps p (maxByPriceAux p ps) (maxByPriceAux_mem ps p)

/-- C1 witness: the claim applied to the demo registry, whose comparison is
computed concretely. -/
theorem C1_witness :
    get_price_comparison demoReg "BTC" 0 = some demoComparison ∧
    (2 ≤ demoComparison.prices.length ∧
     demoComparison.prices = collect_prices "BTC" 0 (get_all_prices demoReg "BTC") ∧
     demoComparison.highest_price ∈ demoComparison.prices ∧
     demoComparison.lowest_price ∈ demoComparison.prices ∧
     (∀ p ∈ demoComparison.prices, p.price ≤ demoComparison.highest_price.price) ∧
     (∀ p ∈ demoComparison.prices, demoComparison.lowest_price.price ≤ p.price) ∧
     demoComparison.lowest_price.price ≤ demoComparison.highest_price.price ∧
     demoComparison.price_difference =
       demoComparison.highest_price.price - demoComparison.lowest_price.price ∧
     demoComparison.price_difference_percentage =
       (demoComparison.highest_price.price - demoComparison.lowest_price.price) /
         demoComparison.lowest_price.price * 100) :=
  ⟨demo_comparison_eval,
   C1_comparison_extrema_and_formulas demoReg "BTC" 0 demoComparison demo_comparison_eval⟩

/-- Unfolds the detector through its dead except handler: the result is the
match on the comparison the source performs. -/
theorem find_arbitrage_opportunities_eq (reg : Registry) (mp : ℚ) (symbol : String)
    (now : ℕ) :
    find_arbitrage_opportunities reg mp symbol now =
      match get_price_comparison reg symbol now with
      | none => []
      | some pc =>
        if pc.price_difference_percentage < mp then []
        else [⟨symbol, pc.lowest_price.exchange, pc.highest_price.exchange,
              pc.lowest_price.price, pc.highest_price.price,
              pc.price_difference_percentage, pc.price_difference, now⟩] := by
  unfold find_arbitrage_opportunities find_arbitrage_opportunities_body
  cases get_price_comparison reg symbol now with
  | none => rfl
  | some pc =>
    by_cases h : pc.price_difference_percentage < mp
    · simp [h]
    · simp [h]

/-- C2: the detector returns the empty list exactly when the comparison is
absent or its percentage is strictly below the threshold; otherwise it
returns exactly one opportunity built from the comparison's lowest (buy)
and highest (sell) prices and its difference figures. -/
theorem C2_find_opportunities_iff (reg : Registry) (mp : ℚ) (symbol : String) (now : ℕ) :
    (find_arbitrage_opportunities reg mp symbol now = [] ↔
      get_price_comparison reg symbol now = none ∨
      ∃ pc, get_price_comparison reg symbol now = some pc ∧
        pc.price_difference_percentage < mp) ∧
    ∀ pc, get_price_comparison reg symbol now = some pc →
      ¬ pc.price_difference_percentage < mp →
      find_arbitrage_opportunities reg mp symbol now =
        [⟨symbol, pc.lowest_price.exchange, pc.highest_price.exchange,
          pc.lowest_price.price, pc.highest_price.price,
          pc.price_difference_percentage, pc.price_difference, now⟩] := by
  constructor
  · rw [find_arbitrage_opportunities_eq]
    cases hc : get_price_comparison reg symbol now with
    | none => simp
    | some pc =>
      by_cases h : pc.price_difference_percentage < mp
      · simp [h]
      · simp [h]
  · intro pc hpc hnot
    rw [find_arbitrage_opportunities_eq, hpc]
    simp [hnot]

/-- C2 witness: at the demo registry with threshold 0.5 the comparison is
present, above threshold, and exactly one opportunity is emitted. -/
theorem C2_witness :
    get_price_comparison demoReg "BTC" 0 = some demoComparison ∧
    ¬ demoComparison.price_difference_percentage < 1 / 2 ∧
    find_arbitrage_opportunities demoReg (1 / 2) "BTC" 0 =
      [⟨"BTC", demoComparison.lowest_price.exchange, demoComparison.highest_price.exchange,
        demoComparison.lowest_price.price, demoComparison.highest_price.price,
        demoComparison.price_difference_percentage, demoComparison.price_difference, 0⟩] :=
  ⟨demo_comparison_eval, by norm_num [demoComparison],
   (C2_find_opportunities_iff demoReg (1 / 2) "BTC" 0).2 demoComparison
     demo_comparison_eval (by norm_num [demoComparison])⟩

/-- C3: with fewer than 2 collected prices the comparison is absent, and
this is the normal `.ok none` outcome of the body — nothing was raised and
nothing escalates to the caller. -/
theorem C3_insufficient_prices_absent (reg : Registry) (symbol : String) (now : ℕ)
    (h : (collect_prices symbol now (get_all_prices reg symbol)).length < 2) :
    get_price_comparison reg symbol now = none ∧
    get_price_comparisonE reg symbol now = .ok none ∧
    get_price_comparison_body reg symbol now = .ok none := by
  have hb : get_price_comparison_body reg symbol now = .ok none := by
    unfold get_price_comparison_body compare_prices
    rw [if_pos h]
  refine ⟨?_, ?_, hb⟩
  · unfold get_price_comparison get_price_comparisonE
    rw [hb]
  · unfold get_price_comparisonE
    rw [hb]

/-- Demo registry with a single responding adapter. -/
def demoRegSingle : Registry := ⟨[("binance", demoAdapterA)]⟩

/-- C3 witness: a single-provider registry yields an absent comparison. -/
theorem C3_witness :
    (collect_prices "BTC" 0 (get_all_prices demoRegSingle "BTC")).length < 2 ∧
    (get_price_comparison demoRegSingle "BTC" 0 = none ∧
     get_price_comparisonE demoRegSingle "BTC" 0 = .ok none ∧
     get_price_comparison_body demoRegSingle "BTC" 0 = .ok none) :=
  ⟨by decide,
   C3_insufficient_prices_absent demoRegSingle "BTC" 0 (by decide)⟩

/-- C8: a registry whose adapter set is empty yields the empty mapping for
every symbol instead of failing. -/
theorem C8_empty_registry_empty_mapping (reg : Registry) (symbol : String)
    (h : reg.exchanges = []) : get_all_prices reg symbol = [] := by
  unfold get_all_prices
  rw [h]
  rfl

/-- Demo registry with no adapters at all. -/
def demoRegEmpty : Registry := ⟨[]⟩

/-- C8 witness: the adapterless registry returns the empty mapping. -/
theorem C8_witness :
    demoRegEmpty.exchanges = [] ∧ get_all_prices demoRegEmpty "BTC" = [] :=
  ⟨rfl, C8_empty_registry_empty_mapping demoRegEmpty "BTC" rfl⟩

/-- C4: the fan-out mapping carries exactly the registered provider names
as keys in registration order, each position holds that provider's own
outcome (an exception-like fault becoming absent for that key only), and a
fault at one position never changes a successful result at another. -/
theorem C4_fanout_keys_and_isolation (reg : Registry) (symbol : String) :
    (get_all_prices reg symbol).map Prod.fst = reg.exchanges.map Prod.fst ∧
    (∀ i : ℕ, (get_all_prices reg symbol)[i]? =
      (reg.exchanges[i]?).map fun nc =>
        (nc.1, match nc.2 symbol with
               | .error _ => none
               | .ok v => v)) ∧
    (∀ i j : ℕ, ∀ ni nj : String, ∀ fi fj : String → AdapterResult, ∀ ei : String,
      ∀ vj : ℚ,
      reg.exchanges[i]? = some (ni, fi) → fi symbol = .error ei →
      reg.exchanges[j]? = some (nj, fj) → fj symbol = .ok (some vj) →
      (get_all_prices reg symbol)[i]? = some (ni, none) ∧
      (get_all_prices reg symbol)[j]? = some (nj, some vj)) := by
  have hmap := get_all_prices_eq_map reg symbol
  have hget : ∀ i : ℕ, (get_all_prices reg symbol)[i]? =
      (reg.exchanges[i]?).map fun nc =>
        (nc.1, match nc.2 symbol with
               | .error _ => none
               | .ok v => v) := by
    intro i
    rw [hmap, List.getElem?_map]
  refine ⟨?_, hget, ?_⟩
  · rw [hmap, List.map_map]
    rfl
  · intro i j ni nj fi fj ei vj hi hfi hj hfj
    constructor
    · rw [hget i, hi]
      simp [hfi]
    · rw [hget j, hj]
      simp [hfj]

/-- C4 witness: in the demo registry the kraken adapter faults while the
coinbase adapter succeeds; the mapping keeps both keys, with absent only at
kraken. -/
theorem C4_witness :
    demoReg.exchanges[2]? = some ("kraken", demoAdapterC) ∧
    demoAdapterC "BTC" = .error "timeout" ∧
    demoReg.exchanges[1]? = some ("coinbase", demoAdapterB) ∧
    demoAdapterB "BTC" = .ok (some 50300) ∧
    (get_all_prices demoReg "BTC")[2]? = some ("kraken", none) ∧
    (get_all_prices demoReg "BTC")[1]? = some ("coinbase", some 50300) :=
  ⟨rfl, rfl, rfl, rfl,
   ((C4_fanout_keys_and_isolation demoReg "BTC").2.2 2 1 "kraken" "coinbase"
     demoAdapterC demoAdapterB "timeout" 50300 rfl rfl rfl rfl).1,
   ((C4_fanout_keys_and_isolation demoReg "BTC").2.2 2 1 "kraken" "coinbase"
     demoAdapterC demoAdapterB "timeout" 50300 rfl rfl rfl rfl).2⟩

/-- C6: when the comparison is returned, `highest_price` is the first
element of the collected price list attaining the maximum (everything
strictly before it is strictly smaller) and `lowest_price` the first
attaining the minimum (everything strictly before it is strictly larger);
both are thus functions of the price mapping alone, independent of
completion order. -/
theorem C6_tie_break_first_encounter (reg : Registry) (symbol : String) (now : ℕ)
    (c : PriceComparison) (h : get_price_comparison reg symbol now = some c) :
    (∃ l₁ l₂, c.prices = l₁ ++ c.highest_price :: l₂ ∧
      ∀ q ∈ l₁, q.price < c.highest_price.price) ∧
    (∃ l₁ l₂, c.prices = l₁ ++ c.lowest_price :: l₂ ∧
      ∀ q ∈ l₁, c.lowest_price.price < q.price) := by
  obtain ⟨p, ps, hcol, hne, h0, rfl⟩ := get_price_comparison_some_elim reg symbol now c h
  exact ⟨maxByPriceAux_first ps p, minByPriceAux_first ps p⟩

/-- Demo adapter reporting 100 for every symbol. -/
def demoAdapterHundred : String → AdapterResult := fun _ => .ok (some 100)

/-- Demo adapter reporting 50 for every symbol. -/
def demoAdapterFifty : String → AdapterResult := fun _ => .ok (some 50)

/-- Demo registry with a tie at the maximum: alpha and beta both report
100, gamma reports 50. -/
def demoTieReg : Registry :=
  ⟨[("alpha", demoAdapterHundred), ("beta", demoAdapterHundred),
    ("gamma", demoAdapterFifty)]⟩

/-- The comparison the tie registry produces: the first provider at the
maximum (alpha) wins the tie. -/
def demoTieComparison : PriceComparison :=
  { symbol := "BTC"
    prices := [⟨"alpha", "BTC", 100, 0⟩, ⟨"beta", "BTC", 100, 0⟩, ⟨"gamma", "BTC", 50, 0⟩]
    highest_price := ⟨"alpha", "BTC", 100, 0⟩
    lowest_price := ⟨"gamma", "BTC", 50, 0⟩
    price_difference := 50
    price_difference_percentage := 100
    timestamp := 0 }

/-- Evaluation of the tie registry: with alpha and beta tied at the
maximum, the first-encountered provider alpha is selected. -/
theorem demo_tie_eval : get_price_comparison demoTieReg "BTC" 0 = some demoTieComparison := by
  norm_num [get_price_comparison, get_price_comparisonE, get_price_comparison_body,
    compare_prices, collect_prices, get_all_prices, demoTieReg, demoAdapterHundred,
    demoAdapterFifty, maxByPriceAux, minByPriceAux, demoTieComparison,
    List.filterMap_cons, List.filterMap_nil]

/-- C6 witness: the tie registry's comparison picks alpha, the first of the
two providers tied at the maximum. -/
theorem C6_witness :
    get_price_comparison demoTieReg "BTC" 0 = some demoTieComparison ∧
    ((∃ l₁ l₂, demoTieComparison.prices = l₁ ++ demoTieComparison.highest_price :: l₂ ∧
      ∀ q ∈ l₁, q.price < demoTieComparison.highest_price.price) ∧
     (∃ l₁ l₂, demoTieComparison.prices = l₁ ++ demoTieComparison.lowest_price :: l₂ ∧
      ∀ q ∈ l₁, demoTieComparison.lowest_price.price < q.price)) :=
  ⟨demo_tie_eval,
   C6_tie_break_first_encounter demoTieReg "BTC" 0 demoTieComparison demo_tie_eval⟩

/-- C7: nothing in the core propagates as an error to the caller: the
comparison's except handler always returns normally with the caller value,
the detector's body always returns normally with the caller value, and an
adapter fault surfaces only as absent for that provider's own key. -/
theorem C7_no_fatal_propagation (reg : Registry) (mp : ℚ) (symbol : String) (now : ℕ) :
    get_price_comparisonE reg symbol now = .ok (get_price_comparison reg symbol now) ∧
    find_arbitrage_opportunities_body reg mp symbol now =
      .ok (find_arbitrage_opportunities reg mp symbol now) ∧
    (∀ i : ℕ, ∀ ni : String, ∀ fi : String → AdapterResult, ∀ ei : String,
      reg.exchanges[i]? = some (ni, fi) → fi symbol = .error ei →
      (get_all_prices reg symbol)[i]? = some (ni, none)) := by
  refine ⟨get_price_comparisonE_eq_ok reg symbol now, ?_, ?_⟩
  · unfold find_arbitrage_opportunities find_arbitrage_opportunities_body
    cases get_price_comparison reg symbol now with
    | none => rfl
    | some pc =>
      by_cases h : pc.price_difference_percentage < mp
      · simp [h]
      · simp [h]
  · intro i ni fi ei hi hfi
    rw [get_all_prices_eq_map, List.getElem?_map, hi]
    simp [hfi]

/-- C7 witness: at the demo registry (whose kraken adapter faults) both
layers return normally and the fault shows up only as kraken's absent
value. -/
theorem C7_witness :
    get_price_comparisonE demoReg "BTC" 0 = .ok (get_price_comparison demoReg "BTC" 0) ∧
    find_arbitrage_opportunities_body demoReg (1 / 2) "BTC" 0 =
      .ok (find_arbitrage_opportunities demoReg (1 / 2) "BTC" 0) ∧
    (get_all_prices demoReg "BTC")[2]? = some ("kraken", none) :=
  ⟨(C7_no_fatal_propagation demoReg (1 / 2) "BTC" 0).1,
   (C7_no_fatal_propagation demoReg (1 / 2) "BTC" 0).2.1,
   (C7_no_fatal_propagation demoReg (1 / 2) "BTC" 0).2.2 2 "kraken" demoAdapterC
     "timeout" rfl rfl⟩

/-- C9: each adapter maps the base symbol to its provider format — Binance
and Coinbase append their quote suffix when absent and pass suffixed
symbols through, Kraken translates through its lookup table and passes
unrecognized symbols through unchanged. -/
theorem C9_symbol_translation (s : String) :
    (str_ends_with s "USDT" = false → binance_symbol s = s ++ "USDT") ∧
    (str_ends_with s "USDT" = true → binance_symbol s = s) ∧
    (str_ends_with s "-USD" = false → coinbase_symbol s = s ++ "-USD") ∧
    (str_ends_with s "-USD" = true → coinbase_symbol s = s) ∧
    (kraken_symbol_mapping.lookup s = none → kraken_symbol s = s) ∧
    (∀ k, kraken_symbol_mapping.lookup s = some k → kraken_symbol s = k) := by
  refine ⟨?_, ?_, ?_, ?_, ?_, ?_⟩
  · intro h
    simp [binance_symbol, h]
  · intro h
    simp [binance_symbol, h]
  · intro h
    simp [coinbase_symbol, h]
  · intro h
    simp [coinbase_symbol, h]
  · intro h
    simp [kraken_symbol, h]
  · intro k h
    simp [kraken_symbol, h]

/-- C9 witness: concrete translations — DOGE gains the Binance and
Coinbase suffixes, a suffixed symbol passes Binance unchanged, DOGE is
outside the Kraken table and passes through, BTC hits the Kraken table. -/
theorem C9_witness :
    str_ends_with "DOGE" "USDT" = false ∧ binance_symbol "DOGE" = "DOGEUSDT" ∧
    str_ends_with "BTCUSDT" "USDT" = true ∧ binance_symbol "BTCUSDT" = "BTCUSDT" ∧
    str_ends_with "DOGE" "-USD" = false ∧ coinbase_symbol "DOGE" = "DOGE-USD" ∧
    kraken_symbol_mapping.lookup "DOGE" = none ∧ kraken_symbol "DOGE" = "DOGE" ∧
    kraken_symbol_mapping.lookup "BTC" = some "XXBTZUSD" ∧
    kraken_symbol "BTC" = "XXBTZUSD" :=
  ⟨by decide, by
    have := (C9_symbol_translation "DOGE").1 (by decide)
    simpa using this,
   by decide, (C9_symbol_translation "BTCUSDT").2.1 (by decide),
   by decide, by
    have := (C9_symbol_translation "DOGE").2.2.1 (by decide)
    simpa using this,
   by decide, (C9_symbol_translation "DOGE").2.2.2.2.1 (by decide),
   by decide, (C9_symbol_translation "BTC").2.2.2.2.2 "XXBTZUSD" (by decide)⟩

/-- C10: prices are not validated for positivity — a non-positive reported
price enters the collected list; a zero minimum makes the body fail with
the internal division error and the caller sees absent; a negative minimum
forces a non-positive percentage, so no opportunity passes any positive
threshold. -/
theorem C10_nonpositive_price_handling (reg : Registry) (mp : ℚ) (symbol : String)
    (now : ℕ) :
    (∀ (i : ℕ) (name : String) (f : String → AdapterResult) (v : ℚ), v ≤ 0 →
      reg.exchanges[i]? = some (name, f) → f symbol = .ok (some v) →
      (⟨name, symbol, v, now⟩ : Price) ∈
        collect_prices symbol now (get_all_prices reg symbol)) ∧
    (∀ p ps, collect_prices symbol now (get_all_prices reg symbol) = p :: ps →
      ps ≠ [] → (minByPriceAux p ps).price = 0 →
      get_price_comparison_body reg symbol now = .error "ZeroDivisionError" ∧
      get_price_comparison reg symbol now = none) ∧
    (∀ c, 0 < mp → get_price_comparison reg symbol now = some c →
      c.lowest_price.price < 0 →
      c.price_difference_percentage ≤ 0 ∧
      find_arbitrage_opportunities reg mp symbol now = []) := by
  refine ⟨?_, ?_, ?_⟩
  · intro i name f v hv hi hf
    have hmem : (name, some v) ∈ get_all_prices reg symbol := by
      apply List.getElem?_mem (n := i)
      rw [get_all_prices_eq_map, List.getElem?_map, hi]
      simp [hf]
    unfold collect_prices
    exact List.mem_filterMap.mpr ⟨(name, some v), hmem, rfl⟩
  · intro p ps hcol hne h0
    have hb : get_price_comparison_body reg symbol now = .error "ZeroDivisionError" := by
      unfold get_price_comparison_body
      rw [hcol]
      cases ps with
      | nil => exact absurd rfl hne
      | cons q ps =>
        simp only [compare_prices, List.length_cons]
        rw [if_neg (by omega)]
        rw [if_pos h0]
    refine ⟨hb, ?_⟩
    unfold get_price_comparison get_price_comparisonE
    rw [hb]
  · intro c hmp hc hneg
    obtain ⟨p, ps, hcol, hne, h0, hcdef⟩ := get_price_comparison_some_elim reg symbol now c hc
    have hlow : c.lowest_price = minByPriceAux p ps := by rw [hcdef]
    have hhigh : c.highest_price = maxByPriceAux p ps := by rw [hcdef]
    have hdiff_nonneg : 0 ≤ c.highest_price.price - c.lowest_price.price := by
      rw [hlow, hhigh]
      have := minByPriceAux_le ps p (maxByPriceAux p ps) (maxByPriceAux_mem ps p)
      linarith
    have hpct : c.price_difference_percentage =
        (c.highest_price.price - c.lowest_price.price) / c.lowest_price.price * 100 := by
      rw [hcdef]
    have hple : c.price_difference_percentage ≤ 0 := by
      rw [hpct]
      have h1 : (c.highest_price.price - c.lowest_price.price) / c.lowest_price.price ≤ 0 :=
        div_nonpos_iff.mpr (Or.inl ⟨hdiff_nonneg, le_of_lt hneg⟩)
      linarith
    refine ⟨hple, ?_⟩
    rw [find_arbitrage_opportunities_eq, hc]
    simp [lt_of_le_of_lt hple hmp]

/-- Demo adapter reporting price 0 for every symbol. -/
def demoAdapterZero : String → AdapterResult := fun _ => .ok (some 0)

/-- Demo adapter reporting price 10 for every symbol. -/
def demoAdapterTen : String → AdapterResult := fun _ => .ok (some 10)

/-- Demo adapter reporting price -10 for every symbol. -/
def demoAdapterNegTen : String → AdapterResult := fun _ => .ok (some (-10))

/-- Demo adapter reporting price -5 for every symbol. -/
def demoAdapterNegFive : String → AdapterResult := fun _ => .ok (some (-5))

/-- Demo registry whose lowest collected price is exactly zero. -/
def demoZeroReg : Registry := ⟨[("zero", demoAdapterZero), ("ten", demoAdapterTen)]⟩

/-- Demo registry whose collected prices are all negative. -/
def demoNegReg : Registry := ⟨[("alpha", demoAdapterNegTen), ("beta", demoAdapterNegFive)]⟩

/-- The comparison the negative-price registry produces: percentage
(( -5 ) - ( -10 )) / ( -10 ) * 100 = -50. -/
def demoNegComparison : PriceComparison :=
  { symbol := "BTC"
    prices := [⟨"alpha", "BTC", -10, 0⟩, ⟨"beta", "BTC", -5, 0⟩]
    highest_price := ⟨"beta", "BTC", -5, 0⟩
    lowest_price := ⟨"alpha", "BTC", -10, 0⟩
    price_difference := 5
    price_difference_percentage := -50
    timestamp := 0 }

/-- Evaluation of the negative-price registry. -/
theorem demo_neg_eval : get_price_comparison demoNegReg "BTC" 0 = some demoNegComparison := by
  norm_num [get_price_comparison, get_price_comparisonE, get_price_comparison_body,
    compare_prices, collect_prices, get_all_prices, demoNegReg, demoAdapterNegTen,
    demoAdapterNegFive, maxByPriceAux, minByPriceAux, demoNegComparison,
    List.filterMap_cons, List.filterMap_nil]

/-- C10 witness: a zero price is collected and yields the internal division
error with an absent comparison; the all-negative registry yields a
non-positive percentage and no opportunity at threshold 0.5. -/
theorem C10_witness :
    (⟨"zero", "BTC", 0, 0⟩ : Price) ∈
      collect_prices "BTC" 0 (get_all_prices demoZeroReg "BTC") ∧
    (get_price_comparison_body demoZeroReg "BTC" 0 = .error "ZeroDivisionError" ∧
     get_price_comparison demoZeroReg "BTC" 0 = none) ∧
    (demoNegComparison.price_difference_percentage ≤ 0 ∧
     find_arbitrage_opportunities demoNegReg (1 / 2) "BTC" 0 = []) :=
  ⟨(C10_nonpositive_price_handling demoZeroReg (1 / 2) "BTC" 0).1 0 "zero"
     demoAdapterZero 0 le_rfl rfl rfl,
   (C10_nonpositive_price_handling demoZeroReg (1 / 2) "BTC" 0).2.1
     ⟨"zero", "BTC", 0, 0⟩ [⟨"ten", "BTC", 10, 0⟩] rfl (by simp)
     (by norm_num [minByPriceAux]),
   (C10_nonpositive_price_handling demoNegReg (1 / 2) "BTC" 0).2.2 demoNegComparison
     (by norm_num) demo_neg_eval (by norm_num [demoNegComparison])⟩

/-- The descending-profit comparison is transitive. -/
theorem profitDescLe_trans : ∀ a b c : ArbitrageOpportunity,
    profitDescLe a b → profitDescLe b c → profitDescLe a c := by
  intro a b c h1 h2
  simp only [profitDescLe, decide_eq_true_eq] at h1 h2 ⊢
  exact le_trans h2 h1

/-- The descending-profit comparison is total. -/
theorem profitDescLe_total : ∀ a b : ArbitrageOpportunity,
    profitDescLe a b || profitDescLe b a := by
  intro a b
  simp only [profitDescLe, Bool.or_eq_true, decide_eq_true_eq]
  exact le_total b.profit_percentage a.profit_percentage

/-- C5: the aggregated list is a permutation of the concatenated
per-symbol results (in supported-symbol processing order), it is sorted by
profit percentage descending, and the sort is stable — for every
percentage value the sub-list of opportunities carrying it is unchanged
from its encounter order in the concatenation. -/
theorem C5_all_opportunities_sorted_stable (reg : Registry) (mp : ℚ)
    (symbols : List String) (now : ℕ) :
    List.Pairwise (fun a b : ArbitrageOpportunity =>
        b.profit_percentage ≤ a.profit_percentage)
      (get_all_arbitrage_opportunities reg mp symbols now) ∧
    (get_all_arbitrage_opportunities reg mp symbols now).Perm
      ((symbols.map fun s => find_arbitrage_opportunities reg mp s now).flatten) ∧
    ∀ q : ℚ,
      (get_all_arbitrage_opportunities reg mp symbols now).filter
          (fun o => decide (o.profit_percentage = q)) =
        ((symbols.map fun s => find_arbitrage_opportunities reg mp s now).flatten).filter
          (fun o => decide (o.profit_percentage = q)) := by
  refine ⟨?_, ?_, ?_⟩
  · have h := List.sorted_mergeSort profitDescLe_trans profitDescLe_total
      ((symbols.map fun s => find_arbitrage_opportunities reg mp s now).flatten)
    unfold get_all_arbitrage_opportunities
    exact h.imp fun hab => by simpa [profitDescLe] using hab
  · unfold get_all_arbitrage_opportunities
    exact List.mergeSort_perm _ profitDescLe
  · intro q
    unfold get_all_arbitrage_opportunities
    have hall : ∀ a ∈ ((symbols.map fun s =>
        find_arbitrage_opportunities reg mp s now).flatten).filter
          (fun o => decide (o.profit_percentage = q)), a.profit_percentage = q := by
      intro a ha
      simpa using (List.mem_filter.mp ha).2
    have hpair : (((symbols.map fun s =>
        find_arbitrage_opportunities reg mp s now).flatten).filter
          (fun o => decide (o.profit_percentage = q))).Pairwise
        fun a b => profitDescLe a b = true := by
      apply List.pairwise_of_forall_mem_list
      intro a ha b hb
      simp only [profitDescLe, decide_eq_true_eq]
      rw [hall a ha, hall b hb]
    have hsub2 := List.sublist_mergeSort profitDescLe_trans profitDescLe_total hpair
      (List.filter_sublist _)
    have hsub3 := hsub2.filter (fun o => decide (o.profit_percentage = q))
    rw [List.filter_eq_self.mpr
      (fun a ha => (List.mem_filter.mp ha).2)] at hsub3
    have hperm := (List.mergeSort_perm ((symbols.map fun s =>
        find_arbitrage_opportunities reg mp s now).flatten) profitDescLe).filter
      (fun o => decide (o.profit_percentage = q))
    exact (hsub3.eq_of_length hperm.length_eq.symm).symm

/-- C5 witness: the claim instantiated at the demo registry over the
default supported-symbol list. -/
theorem C5_witness :
    List.Pairwise (fun a b : ArbitrageOpportunity =>
        b.profit_percentage ≤ a.profit_percentage)
      (get_all_arbitrage_opportunities demoReg (1 / 2) ["BTC", "ETH"] 0) ∧
    (get_all_arbitrage_opportunities demoReg (1 / 2) ["BTC", "ETH"] 0).Perm
      ((["BTC", "ETH"].map fun s =>
        find_arbitrage_opportunities demoReg (1 / 2) s 0).flatten) ∧
    ∀ q : ℚ,
      (get_all_arbitrage_opportunities demoReg (1 / 2) ["BTC", "ETH"] 0).filter
          (fun o => decide (o.profit_percentage = q)) =
        ((["BTC", "ETH"].map fun s =>
          find_arbitrage_opportunities demoReg (1 / 2) s 0).flatten).filter
          (fun o => decide (o.profit_percentage = q)) :=
  C5_all_opportunities_sorted_stable demoReg (1 / 2) ["BTC", "ETH"] 0

end CryptoArb
